import Mathlib

/-!
Verification development for the SPA conversational-relay repository.

The repository stores inbound Telegram messages in a MongoDB collection
(one document per message, with a `status` lifecycle field), debounces
bursts of messages per chat, claims accumulated pending messages, and
forwards the assembled conversation to an LLM completion API.

The definitions below are a shallow embedding of the TypeScript source:
the Mongo collection becomes a `List Msg`, each query/update becomes a
pure function on that list, and the external collaborators (Whisper
transcription, photo download, the completion API, Telegram delivery)
become an explicit `Env` of adapter functions.  The file models the
final iteration of `src/pages/api/telegram.ts` (the variant with the
forced 15-second delay, `processConversationFromCron`, and the
`waitingForDelay`/`waitUntil` fields) together with the earlier
batch-window-only iteration of `processMessagesForChat`, plus the
handlers in `src/pages/api/cron.ts` and `src/pages/api/process-pending.ts`.
-/

namespace SPA

/-- `BATCH_TIME_WINDOW_MS` from telegram.ts: the burst-detection window. -/
def BATCH_TIME_WINDOW_MS : Int := 2000

/-- `FORCED_DELAY_MS` from telegram.ts: forced wait before replying. -/
def FORCED_DELAY_MS : Int := 15000

/-- `CONVERSATION_WINDOW_MINUTES * 60 * 1000` from telegram.ts (30 minutes). -/
def CONVERSATION_WINDOW_MS : Int := 30 * 60 * 1000

/-- `MAX_CONVERSATION_HISTORY` from telegram.ts. -/
def MAX_CONVERSATION_HISTORY : Nat := 15

/-- The `status` field of a stored message document. -/
inductive Status where
  | pending
  | processing
  | processed
  | error
deriving DecidableEq

/-- The discriminated payload of a Telegram message, as the code's
`if (message.text) ... else if (message.voice) ... else if (message.photo)`
chain distinguishes it.  `video`/`other` messages have none of those
fields and fall through the chain. -/
inductive Payload where
  | text (s : String)
  | voice (fileId : Nat)
  | photo (fileId : Nat)
  | video (fileId : Nat)
  | other
deriving DecidableEq

/-- One document of the `temporalConversations` collection, as inserted by
the webhook handler: `chatId`, `message_id`, `timestamp` (ms since epoch),
`status`, plus the `waitingForDelay`/`waitUntil` fields set by the
forced-delay defer branch.  `docId` stands for the Mongo `_id`. -/
structure Msg where
  chatId : Int
  message_id : Int
  timestamp : Int
  status : Status
  payload : Payload
  waitingForDelay : Bool
  waitUntil : Option Int
  docId : Nat
deriving DecidableEq

/-- One element of the `userMessageContent` array sent to the oracle. -/
inductive ContentPart where
  | text (s : String)
  | image (dataUrl : String)
deriving DecidableEq

/-- External collaborators: Whisper transcription (`none` = download or
API failure), photo download/encoding (`none` = failure), the completion
API (`Except.error` = a thrown OpenAI error; on success the reply text),
and Telegram `sendMessage` (`false` = the send throws). -/
structure Env where
  transcribe : Nat → Option String
  fetchPhoto : Nat → Option String
  oracle : List ContentPart → Except Unit String
  send : Int → String → Bool

/-! ### Sorting

`Array.prototype.sort` with comparator `(a, b) => ta - tb` is a stable
ascending sort on the timestamp; we embed it as a stable insertion sort
parameterised by a boolean "keep before" relation. -/

/-- Insert `x` after every element `y` with `le y x` (stable insertion). -/
def insertBy (le : Msg → Msg → Bool) : List Msg → Msg → List Msg
  | [], x => [x]
  | y :: ys, x => if le y x then y :: insertBy le ys x else x :: y :: ys

/-- Stable insertion sort: elements are inserted in original order, each
going after all already-placed elements that compare `le` to it, so
equal keys keep their original relative order. -/
def sortedBy (le : Msg → Msg → Bool) (l : List Msg) : List Msg :=
  l.foldl (insertBy le) []

/-- Ascending-by-timestamp comparison (the JS comparator `ta - tb < 0`,
with ties kept stable). -/
def leTs (a b : Msg) : Bool := decide (a.timestamp ≤ b.timestamp)

/-- Descending-by-timestamp comparison (Mongo `sort({timestamp: -1})`). -/
def geTs (a b : Msg) : Bool := decide (b.timestamp ≤ a.timestamp)

/-- The JS `allMessages.sort((a, b) => ta - tb)`. -/
def sortByTs (l : List Msg) : List Msg := sortedBy leTs l

theorem perm_insertBy (le : Msg → Msg → Bool) :
    ∀ (l : List Msg) (x : Msg), List.Perm (insertBy le l x) (x :: l) := by
  intro l x
  induction l with
  | nil => simp [insertBy]
  | cons y ys ih =>
    simp only [insertBy]
    by_cases h : le y x = true
    · simp only [h, if_true]
      exact (ih.cons y).trans (List.Perm.swap x y ys)
    · simp [h]

theorem perm_foldl_insertBy (le : Msg → Msg → Bool) :
    ∀ (l acc : List Msg), List.Perm (List.foldl (insertBy le) acc l) (acc ++ l) := by
  intro l
  induction l with
  | nil => simp
  | cons x xs ih =>
    intro acc
    have h1 : List.Perm (List.foldl (insertBy le) (insertBy le acc x) xs)
        (insertBy le acc x ++ xs) := ih (insertBy le acc x)
    have h2 : List.Perm (insertBy le acc x ++ xs) ((x :: acc) ++ xs) :=
      (perm_insertBy le acc x).append_right xs
    have h3 : List.Perm ((x :: acc) ++ xs) (acc ++ x :: xs) :=
      List.perm_middle.symm
    exact (h1.trans h2).trans h3

theorem perm_sortedBy (le : Msg → Msg → Bool) (l : List Msg) :
    List.Perm (sortedBy le l) l := by
  simpa using perm_foldl_insertBy le l []

theorem mem_sortedBy (le : Msg → Msg → Bool) (l : List Msg) (x : Msg) :
    x ∈ sortedBy le l ↔ x ∈ l :=
  (perm_sortedBy le l).mem_iff

theorem pairwise_insertBy (le : Msg → Msg → Bool)
    (htot : ∀ a b, le a b = false → le b a = true)
    (htrans : ∀ a b c, le a b = true → le b c = true → le a c = true) :
    ∀ (l : List Msg) (x : Msg),
      l.Pairwise (fun a b => le a b = true) →
      (insertBy le l x).Pairwise (fun a b => le a b = true) := by
  intro l x hl
  induction l with
  | nil => simp [insertBy]
  | cons y ys ih =>
    rcases List.pairwise_cons.mp hl with ⟨hy, hys⟩
    simp only [insertBy]
    by_cases h : le y x = true
    · simp only [h, if_true]
      refine List.pairwise_cons.mpr ⟨?_, ih hys⟩
      intro z hz
      rcases List.mem_cons.mp ((perm_insertBy le ys x).mem_iff.mp hz) with
        rfl | hzys
      · exact h
      · exact hy z hzys
    · simp only [h, if_false]
      refine List.pairwise_cons.mpr ⟨?_, hl⟩
      intro z hz
      have hxy : le x y = true := htot y x (by simpa using h)
      rcases List.mem_cons.mp hz with hzy | hzys
      · subst hzy; exact hxy
      · exact htrans x y z hxy (hy z hzys)

theorem pairwise_sortedBy (le : Msg → Msg → Bool)
    (htot : ∀ a b, le a b = false → le b a = true)
    (htrans : ∀ a b c, le a b = true → le b c = true → le a c = true)
    (l : List Msg) :
    (sortedBy le l).Pairwise (fun a b => le a b = true) := by
  suffices h : ∀ acc, acc.Pairwise (fun a b => le a b = true) →
      (List.foldl (insertBy le) acc l).Pairwise (fun a b => le a b = true) by
    exact h [] (by simp)
  induction l with
  | nil => intro acc hacc; simpa using hacc
  | cons x xs ih =>
    intro acc hacc
    exact ih (insertBy le acc x) (pairwise_insertBy le htot htrans acc x hacc)

theorem leTs_total : ∀ a b : Msg, leTs a b = false → leTs b a = true := by
  intro a b h
  simp only [leTs, decide_eq_false_iff_not, not_le] at h
  simp only [leTs, decide_eq_true_eq]
  omega

theorem leTs_trans : ∀ a b c : Msg,
    leTs a b = true → leTs b c = true → leTs a c = true := by
  intro a b c hab hbc
  simp only [leTs, decide_eq_true_eq] at *
  omega

theorem pairwise_sortByTs (l : List Msg) :
    (sortByTs l).Pairwise (fun a b => a.timestamp ≤ b.timestamp) := by
  have h := pairwise_sortedBy leTs leTs_total leTs_trans l
  exact h.imp (fun hab => by simpa [leTs] using hab)

theorem perm_sortByTs (l : List Msg) : List.Perm (sortByTs l) l :=
  perm_sortedBy leTs l

/-- In a timestamp-sorted list, the last element carries the maximal
timestamp. -/
theorem timestamp_le_getLast_of_pairwise :
    ∀ (l : List Msg) (h : l ≠ []) (x : Msg),
      l.Pairwise (fun a b => a.timestamp ≤ b.timestamp) →
      x ∈ l → x.timestamp ≤ (l.getLast h).timestamp := by
  intro l
  induction l with
  | nil => intro h; exact absurd rfl h
  | cons y ys ih =>
    intro _ x hp hx
    rcases List.pairwise_cons.mp hp with ⟨hy, hys⟩
    cases ys with
    | nil =>
      rcases List.mem_singleton.mp hx with rfl
      simp [List.getLast]
    | cons z zs =>
      have hlast : (y :: z :: zs).getLast (by simp) =
          (z :: zs).getLast (by simp) := by
        simp [List.getLast]
      rw [hlast]
      rcases List.mem_cons.mp hx with rfl | hx'
      · have hz : (z :: zs).getLast (by simp) ∈ z :: zs :=
          List.getLast_mem _
        exact hy _ hz
      · exact ih (by simp) x hys hx'

/-! ### Store queries and updates

The Mongo collection is a `List Msg`; each `find`/`countDocuments`/
`updateMany` of the source becomes a filter/count/map on it. -/

/-- `find({chatId, status: "pending"}).sort({timestamp: 1})`. -/
def pendingFor (store : List Msg) (c : Int) : List Msg :=
  sortByTs (store.filter (fun m => m.chatId == c && m.status == .pending))

/-- `find({chatId, status: "processing"}).sort({timestamp: 1})`. -/
def processingFor (store : List Msg) (c : Int) : List Msg :=
  sortByTs (store.filter (fun m => m.chatId == c && m.status == .processing))

/-- The `_id`s of the pending messages, as `pendingMessages.map(m => m._id)`. -/
def pendingIdsFor (store : List Msg) (c : Int) : List Nat :=
  (pendingFor store c).map (fun m => m.docId)

/-- `countDocuments({chatId, message_id: {$ne: newMessageId},
timestamp: {$gte: now - BATCH_TIME_WINDOW_MS}, status: "pending"})`. -/
def recentPendingCount (store : List Msg) (c : Int) (newId : Int)
    (now : Int) : Nat :=
  (store.filter (fun m =>
    m.chatId == c && m.message_id != newId &&
    decide (now - BATCH_TIME_WINDOW_MS ≤ m.timestamp) &&
    m.status == .pending)).length

/-- `updateMany({_id: {$in: messageIds}}, {$set: {status: "processing",
waitingForDelay: false, waitUntil: null}})` — the claim write of
`processMessagesForChat` (and of process-pending.ts).  Note the filter is
on `_id` only: it carries no `status` or `waitUntil` condition. -/
def claimUpdate (store : List Msg) (ids : List Nat) : List Msg :=
  store.map (fun m =>
    if m.docId ∈ ids then
      { m with status := .processing, waitingForDelay := false,
               waitUntil := none }
    else m)

/-- Whether the claim write's `$set` would actually change a document —
Mongo's `modifiedCount` counts exactly the matched documents it changes. -/
def claimWouldChange (m : Msg) : Bool :=
  m.status != .processing || m.waitingForDelay || m.waitUntil != none

/-- The `modifiedCount` the claim write would report (never consulted by
the webhook code). -/
def claimModifiedCount (store : List Msg) (ids : List Nat) : Nat :=
  (store.filter (fun m => m.docId ∈ ids && claimWouldChange m)).length

/-- `updateMany({chatId, status: "pending"}, {$set: {waitUntil,
waitingForDelay: true}})` — the forced-delay defer write. -/
def deferUpdate (store : List Msg) (c : Int) (wu : Int) : List Msg :=
  store.map (fun m =>
    if m.chatId == c && m.status == .pending then
      { m with waitUntil := some wu, waitingForDelay := true }
    else m)

/-- `updateMany({chatId, _id: {$in: ids}}, {$set: {status}})` — the
terminal-status writes of `processConversation`. -/
def markStatus (store : List Msg) (c : Int) (ids : List Nat)
    (st : Status) : List Msg :=
  store.map (fun m =>
    if m.chatId == c && m.docId ∈ ids then { m with status := st } else m)

/-- `updateMany({_id: {$in: ids}}, {$set: {status}})` (no chatId filter),
as used by `processConversationFromCron` and process-pending.ts. -/
def markStatusByIds (store : List Msg) (ids : List Nat)
    (st : Status) : List Msg :=
  store.map (fun m =>
    if m.docId ∈ ids then { m with status := st } else m)

/-- Mongo `waitUntil: {$lte: now}` — a document without the field (or with
`null`) does not match. -/
def waitUntilElapsed (m : Msg) (now : Int) : Bool :=
  match m.waitUntil with
  | some t => decide (t ≤ now)
  | none => false

/-- `find({chatId, waitingForDelay: true, waitUntil: {$lte: now}})`. -/
def waitingReadyFor (store : List Msg) (c : Int) (now : Int) : List Msg :=
  store.filter (fun m =>
    m.chatId == c && m.waitingForDelay && waitUntilElapsed m now)

/-- `find({chatId, status: "processed", timestamp: {$gte: now - 30min}})
.sort({timestamp: -1}).limit(15)` — the history fetch, returned
most-recent-first as the code receives it. -/
def historyFor (store : List Msg) (c : Int) (now : Int) : List Msg :=
  (sortedBy geTs (store.filter (fun m =>
    m.chatId == c && m.status == .processed &&
    decide (now - CONVERSATION_WINDOW_MS ≤ m.timestamp)))).take
    MAX_CONVERSATION_HISTORY

/-! ### Payload resolution (the per-message body of the content loop) -/

/-- JS `message.text.startsWith('/')`. -/
def startsWithSlash (s : String) : Bool :=
  match s.toList with
  | [] => false
  | c :: _ => c == '/'

/-- One iteration of the `for (const msgDoc of allMessages)` loop: the
content parts pushed for one message.  A nonempty non-command text is
pushed literally; a voice message is transcribed, with the literal
placeholder `(Error al transcribir audio)` pushed when the download or
Whisper call fails; a photo yields an instruction plus the image, with
the placeholder `(Error al procesar imagen)` on failure; video and other
payloads push nothing (they match none of the `if` branches).  The empty
text check reflects JS truthiness of `message.text`. -/
def resolveMsg (env : Env) (m : Msg) : List ContentPart :=
  match m.payload with
  | .text s =>
      if s == "" then []
      else if startsWithSlash s then []
      else [.text s]
  | .voice fileId =>
      match env.transcribe fileId with
      | some t => [.text ("(Audio transcrito: " ++ t ++ ")")]
      | none => [.text "(Error al transcribir audio)"]
  | .photo fileId =>
      match env.fetchPhoto fileId with
      | some b =>
          [.text "Analiza la siguiente imagen enviada por el usuario en el contexto de Solar Pro Argentina.",
           .image ("data:image/jpeg;base64," ++ b)]
      | none => [.text "(Error al procesar imagen)"]
  | .video _ => []
  | .other => []

/-- The whole content loop over a message list. -/
def resolveBatch (env : Env) : List Msg → List ContentPart
  | [] => []
  | m :: ms => resolveMsg env m ++ resolveBatch env ms

theorem mem_resolveBatch (env : Env) {m : Msg} {p : ContentPart} :
    ∀ {l : List Msg}, m ∈ l → p ∈ resolveMsg env m →
      p ∈ resolveBatch env l := by
  intro l hm hp
  induction l with
  | nil => cases hm
  | cons x xs ih =>
    rcases List.mem_cons.mp hm with rfl | hm'
    · exact List.mem_append.mpr (Or.inl hp)
    · exact List.mem_append.mpr (Or.inr (ih hm'))

theorem resolveBatch_eq_nil_iff (env : Env) :
    ∀ l : List Msg, resolveBatch env l = [] ↔
      ∀ m ∈ l, resolveMsg env m = [] := by
  intro l
  induction l with
  | nil => simp [resolveBatch]
  | cons x xs ih =>
    simp [resolveBatch, List.append_eq_nil, ih]

/-! ### Context assembly and `processConversation` -/

/-- `[...historyMessages.reverse(), ...messagesToProcess].sort((a, b) =>
ta - tb)` — the assembly of telegram.ts `processConversation`, where
`hist` is the history list as fetched (most recent first). -/
def assembleWebhook (hist batch : List Msg) : List Msg :=
  sortByTs (hist.reverse ++ batch)

/-- `[...historyMessages, ...messagesToProcess].sort((a, b) => ta - tb)`
— the assembly of `processConversationFromCron` (no `reverse()`). -/
def assembleCron (hist batch : List Msg) : List Msg :=
  sortByTs (hist ++ batch)

/-- The `allMessages` list `processConversation` builds for a chat. -/
def assembledMsgs (store : List Msg) (c : Int) (now : Int) : List Msg :=
  assembleWebhook (historyFor store c now) (processingFor store c)

/-- The `userMessageContent` array `processConversation` builds. -/
def assembledContent (env : Env) (store : List Msg) (c : Int)
    (now : Int) : List ContentPart :=
  resolveBatch env (assembledMsgs store c now)

/-- `completion.choices[0]?.message?.content || 'Lo siento, no pude...'`:
an empty (falsy) reply is replaced by the canned fallback. -/
def replyOrFallback (r : String) : String :=
  if r == "" then "Lo siento, no pude procesar tu consulta en este momento."
  else r

/-- Outcome of one `processConversation` (or cron variant) call: the
store afterwards, how many completion-API calls were made, every text
the code attempted to `bot.sendMessage` to the chat, and the boolean the
function returns. -/
structure ProcResult where
  store : List Msg
  oracleCalls : Nat
  sends : List String
  ok : Bool
deriving DecidableEq

/-- telegram.ts `processConversation` (final iteration): fetch the
`processing` batch, fetch recent `processed` history, assemble
chronologically, resolve payloads; if no content remains, mark the batch
`processed` and return `false` without calling the oracle; otherwise call
the oracle once — on success send the reply (with one fallback send
attempt if that throws) and mark the batch `processed`; on a thrown
oracle error attempt one apology send, mark the batch `error`, and
return `false`. -/
def processConversationModel (env : Env) (store : List Msg) (c : Int)
    (now : Int) : ProcResult :=
  let batch := processingFor store c
  if batch.isEmpty then ⟨store, 0, [], false⟩
  else
    let ids := batch.map (fun m => m.docId)
    let content := assembledContent env store c now
    if content.isEmpty then
      ⟨markStatus store c ids .processed, 0, [], false⟩
    else
      match env.oracle content with
      | .ok r =>
          let reply := replyOrFallback r
          let sends :=
            if env.send c reply then [reply]
            else [reply,
              "Lo siento, tuve un problema al enviar mi respuesta. Por favor, intenta nuevamente."]
          ⟨markStatus store c ids .processed, 1, sends, true⟩
      | .error _ =>
          ⟨markStatus store c ids .error, 1,
            ["Lo siento, hubo un error al intentar generar una respuesta. Por favor, intenta de nuevo."],
            false⟩

/-! ### The dispatch entry point `processMessagesForChat` -/

/-- What one `processMessagesForChat` invocation decided. -/
inductive Decision where
  | deferBurst
  | noPending
  | deferDelay (wu : Int)
  | dispatched
  | startHandled
deriving DecidableEq

/-- Outcome of one dispatch-entry (or webhook-handler) invocation. -/
structure RunResult where
  store : List Msg
  decision : Decision
  oracleCalls : Nat
  sends : List String
  ok : Bool
deriving DecidableEq

/-- telegram.ts `processMessagesForChat` (final iteration): (1) if other
pending messages arrived within `BATCH_TIME_WINDOW_MS` and `force` is not
set, postpone; (2) fetch the pending messages, return if none; (3) if
less than `FORCED_DELAY_MS` has passed since the newest pending message
and `force` is not set, stamp `waitUntil = newest + FORCED_DELAY_MS` on
every pending message of the chat and return; (4) otherwise set every
fetched pending message to `processing` via an `_id`-filtered update and
run `processConversation`.  (The block that merely flips the local
`force` flag when expired `waitingForDelay` messages exist has no further
observable effect — `force` is not consulted after it — and is omitted.) -/
def processMessagesForChatModel (env : Env) (store : List Msg) (c : Int)
    (newId : Int) (now : Int) (force : Bool) : RunResult :=
  if decide (0 < recentPendingCount store c newId now) && !force then
    ⟨store, .deferBurst, 0, [], false⟩
  else
    match h : (pendingFor store c).getLast? with
    | none => ⟨store, .noPending, 0, [], false⟩
    | some latest =>
        if decide (now - latest.timestamp < FORCED_DELAY_MS) && !force then
          let wu := latest.timestamp + FORCED_DELAY_MS
          ⟨deferUpdate store c wu, .deferDelay wu, 0, [], false⟩
        else
          let st1 := claimUpdate store (pendingIdsFor store c)
          let r := processConversationModel env st1 c now
          ⟨r.store, .dispatched, r.oracleCalls, r.sends, r.ok⟩

/-- The decision logic of the earlier batch-window-only iteration of
`processMessagesForChat` (telegram.ts lines 74–158): no forced-delay
check — if no other pending message arrived within the batch window (or
`force` is set) and any pending messages exist, they are claimed and
dispatched at once. -/
def processMessagesV1Decision (store : List Msg) (c : Int) (newId : Int)
    (now : Int) (force : Bool) : Decision :=
  if decide (0 < recentPendingCount store c newId now) && !force then
    .deferBurst
  else if (pendingFor store c).isEmpty then .noPending
  else .dispatched

/-! ### The webhook handler -/

/-- A well-formed Telegram update (`update.message` present with
`chat.id` and `message_id`); malformed updates are rejected with a 400
before touching the store. -/
structure Update where
  chatId : Int
  message_id : Int
  payload : Payload

/-- telegram.ts `handler` (final iteration): `/start` inserts an already-
`processed` record and sends the greeting; otherwise, if expired
`waitingForDelay` messages exist for the chat, the new message is stored
`pending` and processing is forced; otherwise it is stored `pending` and
`processMessagesForChat` runs without `force`.  `docId` is the fresh
Mongo `_id` of the inserted document. -/
def handlerStep (env : Env) (store : List Msg) (u : Update) (now : Int)
    (docId : Nat) : RunResult :=
  if u.payload == .text "/start" then
    let newMsg : Msg :=
      ⟨u.chatId, u.message_id, now, .processed, u.payload, false, none, docId⟩
    ⟨store ++ [newMsg], .startHandled, 0,
      ["¡Hola! Soy un asesor de Solar Pro Argentina. ¿En qué puedo ayudarte?"],
      true⟩
  else
    let ready := waitingReadyFor store u.chatId now
    let newMsg : Msg :=
      ⟨u.chatId, u.message_id, now, .pending, u.payload, false, none, docId⟩
    let store1 := store ++ [newMsg]
    processMessagesForChatModel env store1 u.chatId u.message_id now
      (!ready.isEmpty)

/-! ### `processConversationFromCron` and the cron / manual endpoints -/

/-- telegram.ts `processConversationFromCron`: assemble `hist ++ batch`
chronologically (no `reverse()`), resolve payloads; with no content it
returns `false` leaving the store untouched (the claimed messages keep
status `processing`); otherwise one oracle call — a thrown oracle error
is swallowed by the enclosing catch (`return false`, nothing sent,
nothing marked); on success the reply is sent and, only if the send
succeeds, the batch is marked `processed` by `_id`. -/
def processConversationFromCronModel (env : Env) (store : List Msg)
    (c : Int) (batch hist : List Msg) : ProcResult :=
  let content := resolveBatch env (assembleCron hist batch)
  if content.isEmpty then ⟨store, 0, [], false⟩
  else
    match env.oracle content with
    | .ok r =>
        let reply := replyOrFallback r
        if env.send c reply then
          ⟨markStatusByIds store (batch.map (fun m => m.docId)) .processed,
            1, [reply], true⟩
        else ⟨store, 1, [reply], false⟩
    | .error _ => ⟨store, 1, [], false⟩

/-- cron.ts claim write: `updateMany({chatId, waitingForDelay: true,
waitUntil: {$lte: now}}, {$set: {status: "processing", waitingForDelay:
false, waitUntil: null}})`, together with its reported `modifiedCount`
(every matched document has `waitingForDelay: true`, so the `$set`
changes it and the modified count equals the matched count). -/
def cronClaimUpdate (store : List Msg) (c : Int) (now : Int) :
    List Msg × Nat :=
  (store.map (fun m =>
      if m.chatId == c && m.waitingForDelay && waitUntilElapsed m now then
        { m with status := .processing, waitingForDelay := false,
                 waitUntil := none }
      else m),
   (store.filter (fun m =>
      m.chatId == c && m.waitingForDelay && waitUntilElapsed m now)).length)

/-- The per-chat body of the cron.ts loop: claim via the conditional
update, skip the chat when `modifiedCount == 0` or no `processing`
messages are found, otherwise fetch the batch and history and run
`processConversationFromCron`. -/
def cronChatStep (env : Env) (store : List Msg) (c : Int) (now : Int) :
    ProcResult :=
  let (st1, modified) := cronClaimUpdate store c now
  if modified == 0 then ⟨st1, 0, [], false⟩
  else
    let batch := processingFor st1 c
    if batch.isEmpty then ⟨st1, 0, [], false⟩
    else
      let hist := historyFor st1 c now
      processConversationFromCronModel env st1 c batch hist

/-- First-occurrence deduplication, standing in for grouping the ready
messages into `chatGroups` keyed by `chatId`. -/
def dedupChatIds : List Int → List Int
  | [] => []
  | c :: cs => c :: (dedupChatIds cs).filter (fun d => d != c)

/-- The chats the cron sweep will visit: the distinct `chatId`s of
messages with `waitingForDelay: true` and an elapsed `waitUntil`. -/
def cronReadyChats (store : List Msg) (now : Int) : List Int :=
  dedupChatIds ((store.filter (fun m =>
    m.waitingForDelay && waitUntilElapsed m now)).map (fun m => m.chatId))

/-- The cron sweep proper: visit each ready chat in turn, threading the
store, counting processed and failed chats. -/
def cronProcess (env : Env) (store : List Msg) (now : Int) :
    List Msg × Nat × Nat :=
  (cronReadyChats store now).foldl
    (fun acc c =>
      let r := cronChatStep env acc.1 c now
      (r.store, if r.ok then acc.2.1 + 1 else acc.2.1,
        if r.ok then acc.2.2 else acc.2.2 + 1))
    (store, 0, 0)

/-- JS `String.prototype.includes`, on char lists. -/
def charsHavePrefix : List Char → List Char → Bool
  | [], _ => true
  | _ :: _, [] => false
  | n :: ns, h :: hs => n == h && charsHavePrefix ns hs

/-- Substring containment, as `userAgent.includes('VercelCron')`. -/
def charsContain (needle hay : List Char) : Bool :=
  match hay with
  | [] => charsHavePrefix needle []
  | _ :: t => charsHavePrefix needle hay || charsContain needle t

/-- `hay.includes(needle)` for strings. -/
def strContains (hay needle : String) : Bool :=
  charsContain needle.toList hay.toList

/-- cron.ts `handler`: when the `User-Agent` header contains the
substring `VercelCron`, the bearer-token check is skipped entirely;
otherwise the `Authorization` header must equal `Bearer <CRON_SECRET>`
or the request is rejected with 401 (`Except.error`).  An authorized
request runs the sweep. -/
def cronHandler (env : Env) (userAgent authHeader secret : String)
    (store : List Msg) (now : Int) : Except Unit (List Msg × Nat × Nat) :=
  let isVercelCron := strContains userAgent "VercelCron"
  if !isVercelCron && !(authHeader == "Bearer " ++ secret) then
    .error ()
  else
    .ok (cronProcess env store now)

/-- process-pending.ts per-chat body: the ready (`waitingForDelay` and
elapsed) messages of the chat — read before any update — are set to
`processing` by the same `_id`-only update as the webhook claim
(`claimUpdate`), then the `processing` batch and history are fetched and
handed to `processConversationFromCron`. -/
def manualChatStep (env : Env) (store : List Msg) (c : Int) (now : Int) :
    ProcResult :=
  let ids := (waitingReadyFor store c now).map (fun m => m.docId)
  let st1 := claimUpdate store ids
  let batch := processingFor st1 c
  let hist := historyFor st1 c now
  processConversationFromCronModel env st1 c batch hist

/-! ### Derived observations and helper lemmas -/

/-- The status of the document with Mongo `_id` equal to `id`. -/
def statusOf (store : List Msg) (id : Nat) : Option Status :=
  (store.find? (fun m => m.docId == id)).map (fun m => m.status)

/-- How many stored records carry a given `(conversationId, sequenceId)`
pair. -/
def countPair (store : List Msg) (c mid : Int) : Nat :=
  (store.filter (fun m => m.chatId == c && m.message_id == mid)).length

theorem mem_pendingFor_iff {store : List Msg} {c : Int} {x : Msg} :
    x ∈ pendingFor store c ↔
      x ∈ store ∧ x.chatId = c ∧ x.status = .pending := by
  unfold pendingFor sortByTs
  rw [mem_sortedBy, List.mem_filter]
  simp [and_assoc]

theorem mem_processingFor_iff {store : List Msg} {c : Int} {x : Msg} :
    x ∈ processingFor store c ↔
      x ∈ store ∧ x.chatId = c ∧ x.status = .processing := by
  unfold processingFor sortByTs
  rw [mem_sortedBy, List.mem_filter]
  simp [and_assoc]

theorem mem_waitingReadyFor_iff {store : List Msg} {c : Int} {now : Int}
    {x : Msg} :
    x ∈ waitingReadyFor store c now ↔
      x ∈ store ∧ x.chatId = c ∧ x.waitingForDelay = true ∧
        waitUntilElapsed x now = true := by
  unfold waitingReadyFor
  rw [List.mem_filter]
  simp [and_assoc]

theorem pairwise_pendingFor (store : List Msg) (c : Int) :
    (pendingFor store c).Pairwise (fun a b => a.timestamp ≤ b.timestamp) :=
  pairwise_sortByTs _

/-- Every pending message's timestamp is at most the last (newest) one's. -/
theorem timestamp_le_last_pendingFor {store : List Msg} {c : Int}
    (h : pendingFor store c ≠ []) {x : Msg} (hx : x ∈ pendingFor store c) :
    x.timestamp ≤ ((pendingFor store c).getLast h).timestamp :=
  timestamp_le_getLast_of_pairwise _ h x (pairwise_pendingFor store c) hx

theorem docIds_map_eq (g : Msg → Msg) (hg : ∀ m, (g m).docId = m.docId)
    (l : List Msg) :
    (l.map g).map (fun m => m.docId) = l.map (fun m => m.docId) := by
  induction l with
  | nil => rfl
  | cons m t ih => simp [hg m, ih]

theorem find?_docId_map (g : Msg → Msg) (hg : ∀ m, (g m).docId = m.docId)
    (l : List Msg) (id : Nat) :
    (l.map g).find? (fun m => m.docId == id) =
      ((l.find? (fun m => m.docId == id)).map g) := by
  induction l with
  | nil => rfl
  | cons m t ih =>
    by_cases h : (m.docId == id) = true
    · simp [List.find?_cons, hg m, h]
    · simp only [List.map_cons, List.find?_cons, hg m, h]
      simpa [h] using ih

/-- Pointwise preservation of `statusOf` under a mapped update that fixes
the status of the looked-up document. -/
theorem statusOf_map_of_fix {g : Msg → Msg}
    (hg : ∀ m, (g m).docId = m.docId) {store : List Msg} {id : Nat}
    {st : Status} (h : statusOf store id = some st)
    (hfix : ∀ d, d ∈ store → d.docId = id → d.status = st →
      (g d).status = st) :
    statusOf (store.map g) id = some st := by
  unfold statusOf at h ⊢
  rw [find?_docId_map g hg]
  obtain ⟨d, hd, hds⟩ : ∃ d, store.find? (fun m => m.docId == id) = some d ∧
      d.status = st := by
    cases hfind : store.find? (fun m => m.docId == id) with
    | none => rw [hfind] at h; simp at h
    | some d =>
        rw [hfind] at h
        exact ⟨d, rfl, by simpa using h⟩
  have hmem : d ∈ store := List.mem_of_find?_eq_some hd
  have hid : d.docId = id := by
    have := List.find?_some hd
    simpa using this
  rw [hd]
  simp [hfix d hmem hid hds]

theorem statusOf_append_of_some {store l2 : List Msg} {id : Nat}
    {st : Status} (h : statusOf store id = some st) :
    statusOf (store ++ l2) id = some st := by
  unfold statusOf at h ⊢
  cases hfind : store.find? (fun m => m.docId == id) with
  | none => rw [hfind] at h; simp at h
  | some d =>
      rw [hfind] at h
      rw [List.find?_append, hfind]
      simpa using h

/-- With `_id`s unique in the store, a document whose status differs from
`s` never appears among the `_id`s of the status-`s` messages of a chat. -/
theorem docId_notMem_statusIds {store : List Msg} {c : Int} {d : Msg}
    (hNodup : (store.map (fun m => m.docId)).Nodup) (hd : d ∈ store)
    {s : Status} (hne : d.status ≠ s) :
    d.docId ∉ (sortByTs (store.filter
      (fun m => m.chatId == c && m.status == s))).map (fun m => m.docId) := by
  intro hmem
  obtain ⟨p, hp, hpid⟩ := List.mem_map.mp hmem
  have hp' := List.mem_filter.mp ((mem_sortedBy _ _ _).mp hp)
  have hpst : p.status = s := by
    have := hp'.2
    simp only [Bool.and_eq_true, beq_iff_eq] at this
    exact this.2
  have : p = d := List.inj_on_of_nodup_map hNodup hp'.1 hd hpid
  exact hne (this ▸ hpst)

theorem countPair_map (g : Msg → Msg)
    (hg : ∀ m, (g m).chatId = m.chatId ∧ (g m).message_id = m.message_id) :
    ∀ (l : List Msg) (c mid : Int),
      countPair (l.map g) c mid = countPair l c mid := by
  intro l c mid
  induction l with
  | nil => rfl
  | cons m t ih =>
    by_cases h : (m.chatId == c && m.message_id == mid) = true
    · simp only [countPair, List.map_cons, List.filter_cons,
        (hg m).1, (hg m).2, h] at *
      simpa using ih
    · simp only [countPair, List.map_cons, List.filter_cons,
        (hg m).1, (hg m).2, h] at *
      simpa using ih

theorem countPair_append_single (store : List Msg) (x : Msg)
    (c mid : Int) :
    countPair (store ++ [x]) c mid =
      countPair store c mid +
        (if (x.chatId == c && x.message_id == mid) = true then 1 else 0) := by
  unfold countPair
  rw [List.filter_append]
  by_cases h : (x.chatId == c && x.message_id == mid) = true
  · simp [h]
  · simp [h]

theorem countPair_claimUpdate (store : List Msg) (ids : List Nat)
    (c mid : Int) :
    countPair (claimUpdate store ids) c mid = countPair store c mid := by
  unfold claimUpdate
  apply countPair_map
  intro m
  split <;> simp

theorem countPair_deferUpdate (store : List Msg) (c0 : Int) (wu : Int)
    (c mid : Int) :
    countPair (deferUpdate store c0 wu) c mid = countPair store c mid := by
  unfold deferUpdate
  apply countPair_map
  intro m
  split <;> simp

theorem countPair_markStatus (store : List Msg) (c0 : Int) (ids : List Nat)
    (st : Status) (c mid : Int) :
    countPair (markStatus store c0 ids st) c mid = countPair store c mid := by
  unfold markStatus
  apply countPair_map
  intro m
  split <;> simp

theorem countPair_processConversation (env : Env) (store : List Msg)
    (c0 now c mid : Int) :
    countPair ((processConversationModel env store c0 now).store) c mid =
      countPair store c mid := by
  unfold processConversationModel
  dsimp only
  split
  · rfl
  · split
    · exact countPair_markStatus ..
    · split
      · exact countPair_markStatus ..
      · exact countPair_markStatus ..

theorem countPair_processMessagesForChat (env : Env) (store : List Msg)
    (c0 newId now : Int) (force : Bool) (c mid : Int) :
    countPair ((processMessagesForChatModel env store c0 newId now
        force).store) c mid = countPair store c mid := by
  unfold processMessagesForChatModel
  dsimp only
  split
  · rfl
  · split
    · rfl
    · split
      · exact countPair_deferUpdate ..
      · rw [countPair_processConversation, countPair_claimUpdate]

theorem exists_doc_of_statusOf {store : List Msg} {id : Nat} {st : Status}
    (h : statusOf store id = some st) :
    ∃ d, d ∈ store ∧ d.docId = id ∧ d.status = st := by
  unfold statusOf at h
  cases hfind : store.find? (fun m => m.docId == id) with
  | none => rw [hfind] at h; simp at h
  | some d =>
      rw [hfind] at h
      refine ⟨d, List.mem_of_find?_eq_some hfind, ?_, by simpa using h⟩
      simpa using List.find?_some hfind

theorem notMem_statusIds_of_statusOf {store : List Msg} {id : Nat}
    {st : Status} {c : Int} {s : Status}
    (hNodup : (store.map (fun m => m.docId)).Nodup)
    (h : statusOf store id = some st) (hne : st ≠ s) :
    id ∉ (sortByTs (store.filter
      (fun m => m.chatId == c && m.status == s))).map (fun m => m.docId) := by
  obtain ⟨d, hd, hdid, hds⟩ := exists_doc_of_statusOf h
  have := docId_notMem_statusIds (c := c) hNodup hd (hds ▸ hne)
  exact hdid ▸ this

theorem notMem_waitingReadyIds_of_statusOf {store : List Msg} {id : Nat}
    {st : Status} {c now : Int}
    (hNodup : (store.map (fun m => m.docId)).Nodup)
    (hFlag : ∀ m ∈ store, m.waitingForDelay = true → m.status = .pending)
    (h : statusOf store id = some st) (hne : st ≠ .pending) :
    id ∉ (waitingReadyFor store c now).map (fun m => m.docId) := by
  obtain ⟨d, hd, hdid, hds⟩ := exists_doc_of_statusOf h
  intro hmem
  obtain ⟨p, hp, hpid⟩ := List.mem_map.mp hmem
  obtain ⟨hpmem, _, hpflag, _⟩ := mem_waitingReadyFor_iff.mp hp
  have hpst : p.status = .pending := hFlag p hpmem hpflag
  have : p = d := List.inj_on_of_nodup_map hNodup hpmem hd (hpid.trans hdid.symm)
  exact hne (hds ▸ (this ▸ hpst))

theorem claimUpdate_docId (ids : List Nat) :
    ∀ m : Msg, ((fun m =>
      if m.docId ∈ ids then
        ({ m with status := .processing, waitingForDelay := false,
                  waitUntil := none } : Msg)
      else m) m).docId = m.docId := by
  intro m
  dsimp only
  split <;> rfl

theorem statusOf_claimUpdate_of_notMem {store : List Msg} {id : Nat}
    {st : Status} (ids : List Nat) (h : statusOf store id = some st)
    (hid : id ∉ ids) :
    statusOf (claimUpdate store ids) id = some st := by
  unfold claimUpdate
  apply statusOf_map_of_fix (claimUpdate_docId ids) h
  intro d _ hdid hds
  have hnot : d.docId ∉ ids := hdid ▸ hid
  simp [hnot, hds]

theorem statusOf_deferUpdate {store : List Msg} {id : Nat} {st : Status}
    (c : Int) (wu : Int) (h : statusOf store id = some st)
    (hne : st ≠ .pending) :
    statusOf (deferUpdate store c wu) id = some st := by
  unfold deferUpdate
  apply statusOf_map_of_fix (by intro m; split <;> rfl) h
  intro d _ _ hds
  by_cases hc : (d.chatId == c && d.status == Status.pending) = true
  · have : d.status = Status.pending := by
      simp only [Bool.and_eq_true, beq_iff_eq] at hc
      exact hc.2
    exact absurd (hds ▸ this) hne
  · rw [if_neg hc]
    exact hds

theorem statusOf_markStatus_of_notMem {store : List Msg} {id : Nat}
    {st : Status} (c : Int) (ids : List Nat) (s : Status)
    (h : statusOf store id = some st) (hid : id ∉ ids) :
    statusOf (markStatus store c ids s) id = some st := by
  unfold markStatus
  apply statusOf_map_of_fix (by intro m; split <;> rfl) h
  intro d _ hdid hds
  have hnot : d.docId ∉ ids := hdid ▸ hid
  simp [hnot, hds]

theorem statusOf_markStatusByIds_of_notMem {store : List Msg} {id : Nat}
    {st : Status} (ids : List Nat) (s : Status)
    (h : statusOf store id = some st) (hid : id ∉ ids) :
    statusOf (markStatusByIds store ids s) id = some st := by
  unfold markStatusByIds
  apply statusOf_map_of_fix (by intro m; split <;> rfl) h
  intro d _ hdid hds
  have hnot : d.docId ∉ ids := hdid ▸ hid
  simp [hnot, hds]

theorem statusOf_cronClaimUpdate {store : List Msg} {id : Nat}
    {st : Status} (c now : Int)
    (hFlag : ∀ m ∈ store, m.waitingForDelay = true → m.status = .pending)
    (h : statusOf store id = some st) (hne : st ≠ .pending) :
    statusOf (cronClaimUpdate store c now).1 id = some st := by
  unfold cronClaimUpdate
  apply statusOf_map_of_fix (by intro m; split <;> rfl) h
  intro d hd _ hds
  by_cases hW : d.waitingForDelay = true
  · exact absurd (hds ▸ hFlag d hd hW) hne
  · simp [hW, hds]

theorem docIds_claimUpdate (store : List Msg) (ids : List Nat) :
    (claimUpdate store ids).map (fun m => m.docId) =
      store.map (fun m => m.docId) :=
  docIds_map_eq _ (claimUpdate_docId ids) store

theorem docIds_cronClaimUpdate (store : List Msg) (c now : Int) :
    (cronClaimUpdate store c now).1.map (fun m => m.docId) =
      store.map (fun m => m.docId) :=
  docIds_map_eq _ (by intro m; split <;> rfl) store

/-- Preservation through `processConversation`: a status other than
`processing` survives (the batch ids all belong to `processing`
documents). -/
theorem statusOf_processConversation (env : Env) {store : List Msg}
    {id : Nat} {st : Status} (c now : Int)
    (hNodup : (store.map (fun m => m.docId)).Nodup)
    (h : statusOf store id = some st) (hne : st ≠ .processing) :
    statusOf ((processConversationModel env store c now).store) id =
      some st := by
  have hnot : id ∉ (processingFor store c).map (fun m => m.docId) :=
    notMem_statusIds_of_statusOf (c := c) hNodup h hne
  unfold processConversationModel
  dsimp only
  split
  · exact h
  · split
    · exact statusOf_markStatus_of_notMem _ _ _ h hnot
    · split
      · exact statusOf_markStatus_of_notMem _ _ _ h hnot
      · exact statusOf_markStatus_of_notMem _ _ _ h hnot

/-- Preservation through `processConversationFromCron`, given the batch
ids avoid the document. -/
theorem statusOf_cronProcModel (env : Env) {store : List Msg} {id : Nat}
    {st : Status} (c : Int) (batch hist : List Msg)
    (h : statusOf store id = some st)
    (hnot : id ∉ batch.map (fun m => m.docId)) :
    statusOf ((processConversationFromCronModel env store c batch
        hist).store) id = some st := by
  unfold processConversationFromCronModel
  dsimp only
  split
  · exact h
  · split
    · split
      · exact statusOf_markStatusByIds_of_notMem _ _ h hnot
      · exact h
    · exact h

/-- Preservation through a whole serialized `processMessagesForChat`
invocation: its claim write targets the `_id`s it just read as `pending`,
so a terminal (non-pending, non-processing) status is untouched. -/
theorem statusOf_processMessagesForChat (env : Env) {store : List Msg}
    {id : Nat} {st : Status} (c newId now : Int) (force : Bool)
    (hNodup : (store.map (fun m => m.docId)).Nodup)
    (h : statusOf store id = some st) (hp : st ≠ .pending)
    (hq : st ≠ .processing) :
    statusOf ((processMessagesForChatModel env store c newId now
        force).store) id = some st := by
  unfold processMessagesForChatModel
  dsimp only
  split
  · exact h
  · split
    · exact h
    · split
      · exact statusOf_deferUpdate _ _ h hp
      · have hnot : id ∉ pendingIdsFor store c :=
          notMem_statusIds_of_statusOf (c := c) hNodup h hp
        have h1 : statusOf (claimUpdate store (pendingIdsFor store c)) id =
            some st := statusOf_claimUpdate_of_notMem _ h hnot
        have hNodup1 : ((claimUpdate store
            (pendingIdsFor store c)).map (fun m => m.docId)).Nodup := by
          rw [docIds_claimUpdate]; exact hNodup
        exact statusOf_processConversation env _ _ hNodup1 h1 hq

/-- Preservation through a serialized webhook `handler` invocation
(which inserts a fresh document and runs `processMessagesForChat`). -/
theorem statusOf_handlerStep (env : Env) {store : List Msg} {id : Nat}
    {st : Status} (u : Update) (now : Int) (fresh : Nat)
    (hNodup : (store.map (fun m => m.docId)).Nodup)
    (hFresh : fresh ∉ store.map (fun m => m.docId))
    (h : statusOf store id = some st) (hp : st ≠ .pending)
    (hq : st ≠ .processing) :
    statusOf ((handlerStep env store u now fresh).store) id = some st := by
  unfold handlerStep
  dsimp only
  split
  · exact statusOf_append_of_some h
  · have h1 : statusOf (store ++
        [⟨u.chatId, u.message_id, now, .pending, u.payload, false, none,
          fresh⟩]) id = some st := statusOf_append_of_some h
    have hNodup1 : ((store ++
        [(⟨u.chatId, u.message_id, now, .pending, u.payload, false, none,
          fresh⟩ : Msg)]).map (fun m => m.docId)).Nodup := by
      rw [List.map_append]
      exact List.nodup_append.mpr
        ⟨hNodup, List.nodup_singleton _, by simpa using fun h' => hFresh h'⟩
    exact statusOf_processMessagesForChat env _ _ _ _ hNodup1 h1 hp hq

/-- Preservation through a serialized cron-sweep chat step: the cron claim
write filters on `waitingForDelay`, which (in any reachable serialized
store) only `pending` documents carry. -/
theorem statusOf_cronChatStep (env : Env) {store : List Msg} {id : Nat}
    {st : Status} (c now : Int)
    (hNodup : (store.map (fun m => m.docId)).Nodup)
    (hFlag : ∀ m ∈ store, m.waitingForDelay = true → m.status = .pending)
    (h : statusOf store id = some st) (hp : st ≠ .pending)
    (hq : st ≠ .processing) :
    statusOf ((cronChatStep env store c now).store) id = some st := by
  have h1 : statusOf (cronClaimUpdate store c now).1 id = some st :=
    statusOf_cronClaimUpdate _ _ hFlag h hp
  have hNodup1 : ((cronClaimUpdate store c now).1.map
      (fun m => m.docId)).Nodup := by
    rw [docIds_cronClaimUpdate]; exact hNodup
  unfold cronChatStep
  dsimp only
  split
  · exact h1
  · split
    · exact h1
    · exact statusOf_cronProcModel env _ _ _ h1
        (notMem_statusIds_of_statusOf (c := c) hNodup1 h1 hq)

/-- Preservation through a serialized process-pending.ts chat step. -/
theorem statusOf_manualChatStep (env : Env) {store : List Msg} {id : Nat}
    {st : Status} (c now : Int)
    (hNodup : (store.map (fun m => m.docId)).Nodup)
    (hFlag : ∀ m ∈ store, m.waitingForDelay = true → m.status = .pending)
    (h : statusOf store id = some st) (hp : st ≠ .pending)
    (hq : st ≠ .processing) :
    statusOf ((manualChatStep env store c now).store) id = some st := by
  have hnot : id ∉ (waitingReadyFor store c now).map (fun m => m.docId) :=
    notMem_waitingReadyIds_of_statusOf hNodup hFlag h hp
  have h1 : statusOf (claimUpdate store
      ((waitingReadyFor store c now).map (fun m => m.docId))) id = some st :=
    statusOf_claimUpdate_of_notMem _ h hnot
  have hNodup1 : ((claimUpdate store
      ((waitingReadyFor store c now).map (fun m => m.docId))).map
      (fun m => m.docId)).Nodup := by
    rw [docIds_claimUpdate]; exact hNodup
  unfold manualChatStep
  dsimp only
  exact statusOf_cronProcModel env _ _ _ h1
    (notMem_statusIds_of_statusOf (c := c) hNodup1 h1 hq)

/-! ### Concrete fixtures used by the witnesses and counterexamples -/

/-- Adapter environment in which every external call succeeds except
media handling (transcription and photo download fail). -/
def envOracleOk : Env :=
  ⟨fun _ => none, fun _ => none, fun _ => .ok "ok", fun _ _ => true⟩

/-- Adapter environment in which the completion API throws. -/
def envOracleFail : Env :=
  ⟨fun _ => none, fun _ => none, fun _ => .error (), fun _ _ => true⟩

/-- A lone pending text message of chat 7, received at t = 1000. -/
def msgPendingText : Msg := ⟨7, 1, 1000, .pending, .text "hola", false, none, 0⟩

/-- A pending text message of chat 7 received at t = 0. -/
def msgOldPending : Msg := ⟨7, 1, 0, .pending, .text "hola", false, none, 0⟩

/-- A claimed (processing) video message of chat 7. -/
def msgVideoProcessing : Msg := ⟨7, 2, 1500, .processing, .video 9, false, none, 1⟩

/-- An already-answered (processed) text message of chat 7. -/
def msgHistProcessed : Msg := ⟨7, 1, 1000, .processed, .text "hola", false, none, 0⟩

/-- A claimed (processing) text message of chat 7. -/
def msgTextProcessing : Msg := ⟨7, 3, 1200, .processing, .text "hola", false, none, 2⟩

/-- A claimed (processing) voice message of chat 7 whose media reference
cannot be transcribed under `envOracleOk`. -/
def msgVoiceProcessing : Msg := ⟨7, 4, 1100, .processing, .voice 11, false, none, 3⟩

/-- A history message and a claimed message with equal timestamps but
sequence ids 5 and 3: a `receivedAt` tie. -/
def msgTieHist : Msg := ⟨7, 5, 10, .processed, .text "a", false, none, 0⟩

/-- See `msgTieHist`. -/
def msgTieBatch : Msg := ⟨7, 3, 10, .processing, .text "b", false, none, 1⟩

/-- One inbound text update for chat 7, sequence id 5. -/
def updHola : Update := ⟨7, 5, .text "hola"⟩

/-! ### C2 — idempotent ingestion -/

/-- C2 (counterexample): delivering the same `(conversationId,
sequenceId)` = (7, 5) twice to the webhook handler leaves TWO stored
records for that pair, not one — the inbound append has no
deduplication on `sequenceId`. -/
theorem duplicate_delivery_stores_two_records :
    countPair ((handlerStep envOracleOk
      ((handlerStep envOracleOk [] updHola 0 0).store) updHola 0 1).store)
      7 5 = 2 := by decide

/-- C2 (amended): every webhook delivery unconditionally appends exactly
one record carrying its `(conversationId, sequenceId)` pair — re-delivery
of the same pair accumulates duplicates instead of being idempotent. -/
theorem handler_append_increments_pair_count (env : Env) (store : List Msg)
    (u : Update) (now : Int) (fresh : Nat) :
    countPair ((handlerStep env store u now fresh).store) u.chatId
        u.message_id = countPair store u.chatId u.message_id + 1 := by
  unfold handlerStep
  dsimp only
  split
  · rw [countPair_append_single]
    simp
  · rw [countPair_processMessagesForChat, countPair_append_single]
    simp

/-! ### C9 — immutability of terminal statuses -/

/-- C9 (counterexample): the scheduler claim write (`updateMany` filtered
on `_id` only) applied with ids read before a concurrent invocation
completed flips an already-`processed` message back to `processing`:
invocation B claims pending message 0 and fully processes it (status
`processed`), then invocation A — whose find ran before B's claim —
applies the same `_id`-filtered claim write and the terminal status is
overwritten. -/
theorem claim_write_overwrites_processed :
    statusOf ((processConversationModel envOracleOk
        (claimUpdate [msgPendingText] [0]) 7 1000).store) 0 =
      some .processed ∧
    statusOf (claimUpdate ((processConversationModel envOracleOk
        (claimUpdate [msgPendingText] [0]) 7 1000).store) [0]) 0 =
      some .processing := by decide

/-- C9 (amended): in a serialized execution — each invocation's claim
write using the `_id`s it itself just read — no webhook-handler,
dispatch, cron-sweep, or manual re-process invocation changes the status
of a `processed` or `error` message: every status write either filters
on `pending`/`waitingForDelay` state or targets `_id`s read as
`pending`/`processing` in the same invocation.  Only an interleaved
invocation acting on stale `_id`s (the counterexample) can overwrite a
terminal status. -/
theorem terminal_status_immutable_serialized (env : Env) (store : List Msg)
    (u : Update) (c newId now : Int) (force : Bool) (fresh id : Nat)
    (st : Status)
    (hNodup : (store.map (fun m => m.docId)).Nodup)
    (hFlag : ∀ m ∈ store, m.waitingForDelay = true → m.status = .pending)
    (hFresh : fresh ∉ store.map (fun m => m.docId))
    (hterm : st = .processed ∨ st = .error)
    (h : statusOf store id = some st) :
    statusOf ((handlerStep env store u now fresh).store) id = some st ∧
    statusOf ((processMessagesForChatModel env store c newId now
        force).store) id = some st ∧
    statusOf ((cronChatStep env store c now).store) id = some st ∧
    statusOf ((manualChatStep env store c now).store) id = some st := by
  have hp : st ≠ .pending := by rcases hterm with rfl | rfl <;> simp
  have hq : st ≠ .processing := by rcases hterm with rfl | rfl <;> simp
  exact ⟨statusOf_handlerStep env u now fresh hNodup hFresh h hp hq,
    statusOf_processMessagesForChat env c newId now force hNodup h hp hq,
    statusOf_cronChatStep env c now hNodup hFlag h hp hq,
    statusOf_manualChatStep env c now hNodup hFlag h hp hq⟩

/-- C9 (witness): the serialized-immutability theorem applied to a store
holding one `processed` message. -/
theorem terminal_status_immutable_serialized_witness :
    statusOf ((handlerStep envOracleOk [msgHistProcessed] updHola 2000
        1).store) 0 = some .processed ∧
    statusOf ((processMessagesForChatModel envOracleOk [msgHistProcessed]
        7 5 2000 false).store) 0 = some .processed ∧
    statusOf ((cronChatStep envOracleOk [msgHistProcessed] 7 2000).store)
        0 = some .processed ∧
    statusOf ((manualChatStep envOracleOk [msgHistProcessed] 7
        2000).store) 0 = some .processed :=
  terminal_status_immutable_serialized envOracleOk [msgHistProcessed]
    updHola 7 5 2000 false 1 0 .processed (by decide)
    (by intro m hm hflag; rcases List.mem_singleton.mp hm with rfl; cases hflag)
    (by decide) (Or.inl rfl) (by decide)

/-! ### C10 — cron endpoint authorization bypass for VercelCron -/

/-- C10: any request whose `User-Agent` contains the substring
`VercelCron` skips the bearer-token check entirely — for every
`Authorization` header value the cron handler proceeds to claim and
process waiting messages exactly as an authorized request would. -/
theorem cron_vercel_user_agent_skips_auth (env : Env)
    (ua auth secret : String) (store : List Msg) (now : Int)
    (h : strContains ua "VercelCron" = true) :
    cronHandler env ua auth secret store now =
      .ok (cronProcess env store now) := by
  unfold cronHandler
  simp [h]

/-- C10 (witness): a request with a `VercelCron` user agent and a wrong
bearer token is served, not rejected. -/
theorem cron_vercel_user_agent_skips_auth_witness :
    cronHandler envOracleOk "Mozilla/5.0 VercelCron/1.0"
        "Bearer wrong-secret" "real-secret" [msgHistProcessed] 0 =
      .ok (cronProcess envOracleOk [msgHistProcessed] 0) :=
  cron_vercel_user_agent_skips_auth envOracleOk _ _ _ _ _ (by decide)

/-! ### C1 — the claim step under concurrency -/

/-- C1 (counterexample): two concurrent claim attempts on chat 7, both
reading the pending set before either writes (find A, find B, update A,
update B).  Both finds return id 0; A's update reports 1 modified row and
B's reports 0 — but the code never consults the modified count, B's find
already returned a nonempty batch, the claimed batch both see afterwards
is nonempty, and a `processConversation` run over it still invokes the
oracle.  The loser does not proceed as a no-op, and the write that was
supposed to be a conditional read-modify-write filters on `_id` only. -/
theorem claim_interleaving_counterexample :
    pendingIdsFor [msgPendingText] 7 = [0] ∧
    claimModifiedCount [msgPendingText] [0] = 1 ∧
    claimModifiedCount (claimUpdate [msgPendingText] [0]) [0] = 0 ∧
    processingFor (claimUpdate (claimUpdate [msgPendingText] [0]) [0])
      7 ≠ [] ∧
    (processConversationModel envOracleOk
      (claimUpdate (claimUpdate [msgPendingText] [0]) [0]) 7
      1000).oracleCalls = 1 := by decide

/-- C1 (amended): the claim is a non-atomic find-then-update — the update
filters on `_id` only (no `status = pending` or `waitUntil` condition)
and its modified count is never consulted.  For any store with eligible
pending messages, when two attempts interleave as find/find/update/
update, the first update modifies at least one row, the interleaved
second modifies zero rows, and the claimed batch is nonetheless nonempty
afterwards, so both attempts proceed to dispatch it. -/
theorem claim_find_then_update_both_proceed (store : List Msg) (c : Int)
    (h : pendingIdsFor store c ≠ []) :
    1 ≤ claimModifiedCount store (pendingIdsFor store c) ∧
    claimModifiedCount (claimUpdate store (pendingIdsFor store c))
      (pendingIdsFor store c) = 0 ∧
    processingFor (claimUpdate (claimUpdate store (pendingIdsFor store c))
      (pendingIdsFor store c)) c ≠ [] := by
  have hpf : pendingFor store c ≠ [] := by
    intro hnil
    exact h (by simp [pendingIdsFor, hnil])
  obtain ⟨m, hm⟩ := List.exists_mem_of_ne_nil _ hpf
  obtain ⟨hmStore, hmChat, hmStat⟩ := mem_pendingFor_iff.mp hm
  have hmId : m.docId ∈ pendingIdsFor store c :=
    List.mem_map_of_mem _ hm
  refine ⟨?_, ?_, ?_⟩
  · have hpred : (decide (m.docId ∈ pendingIdsFor store c) &&
        claimWouldChange m) = true := by
      simp [hmId, claimWouldChange, hmStat]
    have hmem : m ∈ store.filter (fun x =>
        decide (x.docId ∈ pendingIdsFor store c) && claimWouldChange x) :=
      List.mem_filter.mpr ⟨hmStore, hpred⟩
    have : 0 < (store.filter (fun x =>
        decide (x.docId ∈ pendingIdsFor store c) &&
          claimWouldChange x)).length :=
      List.length_pos.mpr (List.ne_nil_of_mem hmem)
    exact this
  · unfold claimModifiedCount
    rw [List.length_eq_zero, List.filter_eq_nil_iff]
    intro a ha
    unfold claimUpdate at ha
    obtain ⟨x, _, rfl⟩ := List.mem_map.mp ha
    by_cases hx : x.docId ∈ pendingIdsFor store c
    · rw [if_pos hx]
      simp [claimWouldChange]
    · rw [if_neg hx]
      simp [hx]
  · have hm1 : ({ m with
          status := .processing, waitingForDelay := false,
          waitUntil := none } : Msg) ∈
        claimUpdate (claimUpdate store (pendingIdsFor store c))
          (pendingIdsFor store c) := by
      unfold claimUpdate
      have h1 : ({ m with
            status := .processing, waitingForDelay := false,
            waitUntil := none } : Msg) ∈ store.map (fun x =>
          if x.docId ∈ pendingIdsFor store c then
            { x with
                status := .processing, waitingForDelay := false,
                waitUntil := none }
          else x) := by
        have := List.mem_map_of_mem (fun x =>
          if x.docId ∈ pendingIdsFor store c then
            ({ x with
                status := .processing, waitingForDelay := false,
                waitUntil := none } : Msg)
          else x) hmStore
        dsimp only at this
        rwa [if_pos hmId] at this
      have := List.mem_map_of_mem (fun x =>
        if x.docId ∈ pendingIdsFor store c then
          ({ x with
              status := .processing, waitingForDelay := false,
              waitUntil := none } : Msg)
        else x) h1
      dsimp only at this
      rwa [if_pos hmId] at this
    refine List.ne_nil_of_mem (mem_processingFor_iff.mpr ⟨hm1, ?_, rfl⟩)
    simpa using hmChat

/-- C1 (witness): the amended interleaving statement at the one-message
store. -/
theorem claim_find_then_update_both_proceed_witness :
    1 ≤ claimModifiedCount [msgPendingText]
        (pendingIdsFor [msgPendingText] 7) ∧
    claimModifiedCount (claimUpdate [msgPendingText]
        (pendingIdsFor [msgPendingText] 7))
      (pendingIdsFor [msgPendingText] 7) = 0 ∧
    processingFor (claimUpdate (claimUpdate [msgPendingText]
        (pendingIdsFor [msgPendingText] 7))
      (pendingIdsFor [msgPendingText] 7)) 7 ≠ [] :=
  claim_find_then_update_both_proceed [msgPendingText] 7 (by decide)

/-! ### C3 — lone pending message and the quiet period -/

/-- C3 (counterexample): under the batch-window-only iteration of
`processMessagesForChat` (telegram.ts lines 74–158), a conversation whose
pending set is exactly the just-arrived message dispatches IMMEDIATELY:
the recent-message count excludes the current `message_id`, so a lone
pending message never waits the quiet period.  Here the decision is taken
at `now = 1000`, the very instant the lone message (receivedAt 1000) was
stored. -/
theorem lone_message_dispatches_immediately_v1 :
    processMessagesV1Decision [msgPendingText] 7 1 1000 false =
      .dispatched ∧
    msgPendingText.timestamp = 1000 := by decide

/-- C3 (amended): under the final (forced-delay) iteration, a
conversation whose pending set is exactly the just-arrived message is
deferred — not dispatched — until `FORCED_DELAY_MS` (15 s, the forced
minimum delay, not the 2 s batch window) has elapsed since its
`receivedAt`: every pending message is stamped `waitUntil = receivedAt +
FORCED_DELAY_MS`.  Under the earlier batch-window-only iteration the same
lone message dispatches immediately (see the counterexample). -/
theorem lone_pending_message_deferred (env : Env) (store : List Msg)
    (c newId now : Int) (m : Msg)
    (h1 : pendingFor store c = [m]) (hid : newId = m.message_id)
    (h2 : now - m.timestamp < FORCED_DELAY_MS) :
    processMessagesForChatModel env store c newId now false =
      ⟨deferUpdate store c (m.timestamp + FORCED_DELAY_MS),
        .deferDelay (m.timestamp + FORCED_DELAY_MS), 0, [], false⟩ := by
  have hrc : recentPendingCount store c newId now = 0 := by
    unfold recentPendingCount
    rw [List.length_eq_zero, List.filter_eq_nil_iff]
    intro x hx hpred
    simp only [Bool.and_eq_true, beq_iff_eq, bne_iff_ne, ne_eq,
      decide_eq_true_eq] at hpred
    obtain ⟨⟨⟨hchat, hne⟩, _⟩, hstat⟩ := hpred
    have hxp : x ∈ pendingFor store c :=
      mem_pendingFor_iff.mpr ⟨hx, hchat, hstat⟩
    rw [h1] at hxp
    rcases List.mem_singleton.mp hxp with rfl
    exact hne hid.symm
  unfold processMessagesForChatModel
  rw [hrc, h1]
  simp [h2]

/-- C3 (witness): the amended statement at the lone-message store,
evaluated at the arrival instant. -/
theorem lone_pending_message_deferred_witness :
    processMessagesForChatModel envOracleOk [msgPendingText] 7 1 1000
        false =
      ⟨deferUpdate [msgPendingText] 7
          (msgPendingText.timestamp + FORCED_DELAY_MS),
        .deferDelay (msgPendingText.timestamp + FORCED_DELAY_MS), 0, [],
        false⟩ :=
  lone_pending_message_deferred envOracleOk [msgPendingText] 7 1 1000
    msgPendingText (by decide) (by decide) (by decide)

/-! ### C4 — the boundary of the debounce comparison -/

/-- C4: when exactly `FORCED_DELAY_MS` has elapsed since the newest
pending message — the threshold the code compares
`timeSinceNewestPending` against, `if (timeSinceLastMsg <
FORCED_DELAY_MS && !force)` — the strict `<` fails and the policy
dispatches: the boundary case favors progress.  (The burst check cannot
defer either: every pending message is then at least `FORCED_DELAY_MS` >
`BATCH_TIME_WINDOW_MS` old.) -/
theorem boundary_elapsed_quiet_period_dispatches (env : Env)
    (store : List Msg) (c newId : Int) (h : pendingFor store c ≠ []) :
    (processMessagesForChatModel env store c newId
        (((pendingFor store c).getLast h).timestamp + FORCED_DELAY_MS)
        false).decision = .dispatched := by
  have hrc : recentPendingCount store c newId
      (((pendingFor store c).getLast h).timestamp + FORCED_DELAY_MS)
        = 0 := by
    unfold recentPendingCount
    rw [List.length_eq_zero, List.filter_eq_nil_iff]
    intro x hx hpred
    simp only [Bool.and_eq_true, beq_iff_eq, bne_iff_ne, ne_eq,
      decide_eq_true_eq] at hpred
    obtain ⟨⟨⟨hchat, _⟩, hts⟩, hstat⟩ := hpred
    have hxp : x ∈ pendingFor store c :=
      mem_pendingFor_iff.mpr ⟨hx, hchat, hstat⟩
    have hle : x.timestamp ≤ ((pendingFor store c).getLast h).timestamp :=
      timestamp_le_last_pendingFor h hxp
    unfold FORCED_DELAY_MS BATCH_TIME_WINDOW_MS at hts
    omega
  unfold processMessagesForChatModel
  rw [hrc, List.getLast?_eq_getLast _ h]
  have hlt : ¬ (((pendingFor store c).getLast h).timestamp +
      FORCED_DELAY_MS - ((pendingFor store c).getLast h).timestamp <
        FORCED_DELAY_MS) := by omega
  simp [hlt]

/-- C4 (witness): a chat whose single pending message is exactly 15
seconds old dispatches. -/
theorem boundary_elapsed_quiet_period_dispatches_witness :
    (processMessagesForChatModel envOracleOk [msgOldPending] 7 1
        (((pendingFor [msgOldPending] 7).getLast (by decide)).timestamp +
          FORCED_DELAY_MS) false).decision = .dispatched :=
  boundary_elapsed_quiet_period_dispatches envOracleOk [msgOldPending] 7 1
    (by decide)

/-! ### C5 — chronological assembly -/

/-- Modelled from the spec's words (the comparison definition for the
refinement claim): ascending by `receivedAt`, ties broken by
`sequenceId` ascending. -/
def leChron (a b : Msg) : Bool :=
  decide (a.timestamp < b.timestamp) ||
    (decide (a.timestamp = b.timestamp) &&
      decide (a.message_id ≤ b.message_id))

/-- Modelled from the spec's words: "Merge both sets, sort ascending by
`receivedAt` (ties broken by `sequenceId` ascending), producing one
chronological sequence." -/
def specChronologicalMerge (l : List Msg) : List Msg :=
  sortedBy leChron l

theorem leChron_total : ∀ a b : Msg, leChron a b = false →
    leChron b a = true := by
  intro a b h
  simp only [leChron, Bool.or_eq_false_iff, Bool.and_eq_false_iff,
    decide_eq_false_iff_not, not_lt] at h
  simp only [leChron, Bool.or_eq_true, Bool.and_eq_true,
    decide_eq_true_eq]
  rcases h with ⟨h1, h2 | h2⟩ <;> omega

theorem leChron_trans : ∀ a b c : Msg, leChron a b = true →
    leChron b c = true → leChron a c = true := by
  intro a b c hab hbc
  simp only [leChron, Bool.or_eq_true, Bool.and_eq_true,
    decide_eq_true_eq] at *
  rcases hab with h1 | ⟨h1, h2⟩ <;> rcases hbc with h3 | ⟨h3, h4⟩ <;> omega

/-- Two lists strictly sorted by timestamp that are permutations of each
other coincide. -/
theorem eq_of_perm_of_strict_ts {l₁ l₂ : List Msg}
    (p : List.Perm l₁ l₂)
    (h₁ : l₁.Pairwise (fun a b => a.timestamp < b.timestamp))
    (h₂ : l₂.Pairwise (fun a b => a.timestamp < b.timestamp)) :
    l₁ = l₂ := by
  haveI : IsAntisymm Msg (fun a b => a.timestamp < b.timestamp) :=
    ⟨fun a b hab hba => absurd hab (by omega)⟩
  exact List.eq_of_perm_of_sorted p h₁ h₂

theorem perm_assembleWebhook (hist batch : List Msg) :
    List.Perm (assembleWebhook hist batch) (hist ++ batch) :=
  (perm_sortByTs _).trans ((List.reverse_perm hist).append_right batch)

theorem perm_specChronologicalMerge (l : List Msg) :
    List.Perm (specChronologicalMerge l) l :=
  perm_sortedBy leChron l

/-- When the timestamps of `l` are pairwise distinct, any list that is a
permutation of `l` and sorted by timestamp is strictly sorted. -/
theorem strict_of_sorted_of_distinct {l l' : List Msg}
    (p : List.Perm l' l)
    (hdist : l.Pairwise (fun a b => a.timestamp ≠ b.timestamp))
    (hsort : l'.Pairwise (fun a b => a.timestamp ≤ b.timestamp)) :
    l'.Pairwise (fun a b => a.timestamp < b.timestamp) := by
  have hdist' : l'.Pairwise (fun a b => a.timestamp ≠ b.timestamp) :=
    (List.Perm.pairwise_iff (fun h => Ne.symm h) p).mpr hdist
  exact (hsort.and hdist').imp (fun h => by omega)

/-- The code's assembly agrees with the spec's merge whenever the
timestamps of the merged messages are pairwise distinct. -/
theorem assembleWebhook_eq_specMerge {hist batch : List Msg}
    (hdist : (hist ++ batch).Pairwise
      (fun a b => a.timestamp ≠ b.timestamp)) :
    assembleWebhook hist batch = specChronologicalMerge (hist ++ batch) := by
  have permA := perm_assembleWebhook hist batch
  have permS := perm_specChronologicalMerge (hist ++ batch)
  have strictA := strict_of_sorted_of_distinct permA hdist
    (pairwise_sortByTs _)
  have strictS : (specChronologicalMerge (hist ++ batch)).Pairwise
      (fun a b => a.timestamp < b.timestamp) := by
    have hs := pairwise_sortedBy leChron leChron_total leChron_trans
      (hist ++ batch)
    have hle : (specChronologicalMerge (hist ++ batch)).Pairwise
        (fun a b => a.timestamp ≤ b.timestamp) := by
      refine hs.imp (fun hab => ?_)
      simp only [leChron, Bool.or_eq_true, Bool.and_eq_true,
        decide_eq_true_eq] at hab
      rcases hab with h1 | ⟨h1, _⟩ <;> omega
    exact strict_of_sorted_of_distinct permS hdist hle
  exact eq_of_perm_of_strict_ts (permA.trans permS.symm) strictA strictS

/-- C5 (counterexample): a `receivedAt` tie between a history message
(sequenceId 5) and a claimed message (sequenceId 3).  The code's stable
timestamp-only sort keeps the history message first, producing sequence
ids [5, 3]; the spec's tie-break demands [3, 5].  Ties are broken by
list position (history before claimed, store return order within each),
not by `sequenceId`. -/
theorem assembly_tie_not_broken_by_sequenceId :
    (assembleWebhook [msgTieHist] [msgTieBatch]).map
        (fun m => m.message_id) = [5, 3] ∧
    (specChronologicalMerge ([msgTieHist] ++ [msgTieBatch])).map
        (fun m => m.message_id) = [3, 5] ∧
    assembleWebhook [msgTieHist] [msgTieBatch] ≠
      specChronologicalMerge ([msgTieHist] ++ [msgTieBatch]) ∧
    msgTieHist.timestamp = msgTieBatch.timestamp := by decide

/-- C5 (amended): the assembled payload is the merge of the claimed and
historical sets sorted ascending by `receivedAt` with a STABLE sort: ties
on `receivedAt` keep list order (history before claimed, store return
order within each set), not `sequenceId` order.  When all timestamps are
pairwise distinct the assembly is exactly the spec's chronological merge,
and is independent of the order in which the store returned either set. -/
theorem assembly_chronological_on_distinct_timestamps
    (hist batch : List Msg)
    (hdist : (hist ++ batch).Pairwise
      (fun a b => a.timestamp ≠ b.timestamp)) :
    assembleWebhook hist batch = specChronologicalMerge (hist ++ batch) ∧
    ∀ hist' batch', List.Perm hist' hist → List.Perm batch' batch →
      assembleWebhook hist' batch' = assembleWebhook hist batch := by
  refine ⟨assembleWebhook_eq_specMerge hdist, ?_⟩
  intro hist' batch' ph pb
  have pappend : List.Perm (hist' ++ batch') (hist ++ batch) :=
    ph.append pb
  have hdist' : (hist' ++ batch').Pairwise
      (fun a b => a.timestamp ≠ b.timestamp) :=
    (List.Perm.pairwise_iff (fun h => Ne.symm h) pappend).mpr hdist
  rw [assembleWebhook_eq_specMerge hdist',
    assembleWebhook_eq_specMerge hdist]
  have permS1 := perm_specChronologicalMerge (hist' ++ batch')
  have permS2 := perm_specChronologicalMerge (hist ++ batch)
  have hle1 : (specChronologicalMerge (hist' ++ batch')).Pairwise
      (fun a b => a.timestamp ≤ b.timestamp) := by
    refine (pairwise_sortedBy leChron leChron_total leChron_trans
      (hist' ++ batch')).imp (fun hab => ?_)
    simp only [leChron, Bool.or_eq_true, Bool.and_eq_true,
      decide_eq_true_eq] at hab
    rcases hab with h1 | ⟨h1, _⟩ <;> omega
  have hle2 : (specChronologicalMerge (hist ++ batch)).Pairwise
      (fun a b => a.timestamp ≤ b.timestamp) := by
    refine (pairwise_sortedBy leChron leChron_total leChron_trans
      (hist ++ batch)).imp (fun hab => ?_)
    simp only [leChron, Bool.or_eq_true, Bool.and_eq_true,
      decide_eq_true_eq] at hab
    rcases hab with h1 | ⟨h1, _⟩ <;> omega
  exact eq_of_perm_of_strict_ts
    ((permS1.trans pappend).trans permS2.symm)
    (strict_of_sorted_of_distinct (permS1.trans pappend) hdist hle1)
    (strict_of_sorted_of_distinct permS2 hdist hle2)

/-- C5 (witness): distinct-timestamp assembly at a concrete history (t =
1000) and claimed batch (t = 1200). -/
theorem assembly_chronological_on_distinct_timestamps_witness :
    assembleWebhook [msgHistProcessed] [msgTextProcessing] =
      specChronologicalMerge ([msgHistProcessed] ++ [msgTextProcessing]) ∧
    ∀ hist' batch', List.Perm hist' [msgHistProcessed] →
      List.Perm batch' [msgTextProcessing] →
      assembleWebhook hist' batch' =
        assembleWebhook [msgHistProcessed] [msgTextProcessing] :=
  assembly_chronological_on_distinct_timestamps [msgHistProcessed]
    [msgTextProcessing] (by decide)

/-! ### C6 — empty-content short-circuit -/

/-- C6 (counterexample): a claimed batch that is exactly one video
message — zero content units after resolution — together with one recent
processed text message of history.  The oracle call count is 1, not 0:
`processConversation` builds its content from batch AND history, so the
short-circuit does not fire for a zero-content batch when the history
contributes content. -/
theorem video_batch_with_history_still_calls_oracle :
    processingFor [msgVideoProcessing, msgHistProcessed] 7 =
      [msgVideoProcessing] ∧
    resolveBatch envOracleOk
      (processingFor [msgVideoProcessing, msgHistProcessed] 7) = [] ∧
    (processConversationModel envOracleOk
      [msgVideoProcessing, msgHistProcessed] 7 2000).oracleCalls = 1 := by
  decide

/-- C6 (amended): the short-circuit condition is emptiness of the
COMBINED batch-plus-history resolution: when that combined content is
empty, `processConversation` marks the claimed messages `processed`,
sends nothing, and never invokes the oracle; the cron-path variant
(`processConversationFromCron`) with empty content likewise never
invokes the oracle but returns with the store unchanged — its claimed
messages are NOT marked `processed` and remain `processing`. -/
theorem empty_content_short_circuit (env : Env) (store : List Msg)
    (c now : Int) (store2 : List Msg) (c2 : Int)
    (batch2 hist2 : List Msg)
    (hb : processingFor store c ≠ [])
    (h1 : assembledContent env store c now = [])
    (h2 : resolveBatch env (assembleCron hist2 batch2) = []) :
    processConversationModel env store c now =
      ⟨markStatus store c ((processingFor store c).map (fun m => m.docId))
        .processed, 0, [], false⟩ ∧
    processConversationFromCronModel env store2 c2 batch2 hist2 =
      ⟨store2, 0, [], false⟩ := by
  constructor
  · have hb' : (processingFor store c).isEmpty = false := by
      simpa using hb
    unfold processConversationModel
    dsimp only
    rw [hb', h1]
    simp
  · unfold processConversationFromCronModel
    dsimp only
    rw [h2]
    simp

/-- C6 (witness): the amended statement at a store holding one claimed
video message and no history. -/
theorem empty_content_short_circuit_witness :
    processConversationModel envOracleOk [msgVideoProcessing] 7 2000 =
      ⟨markStatus [msgVideoProcessing] 7
        ((processingFor [msgVideoProcessing] 7).map (fun m => m.docId))
        .processed, 0, [], false⟩ ∧
    processConversationFromCronModel envOracleOk [msgVideoProcessing] 7
        [msgVideoProcessing] [] = ⟨[msgVideoProcessing], 0, [], false⟩ :=
  empty_content_short_circuit envOracleOk [msgVideoProcessing] 7 2000
    [msgVideoProcessing] 7 [msgVideoProcessing] [] (by decide) (by decide)
    (by decide)

/-! ### C7 — oracle-failure handling -/

/-- C7 (counterexample): a batch claimed by the cron sweep whose oracle
call throws.  `processConversationFromCron` swallows the failure in its
catch-all: nothing is sent (no apology attempt) and the store is
unchanged, so the claimed message stays `processing` — it is never
marked `error`. -/
theorem cron_oracle_failure_swallowed :
    processConversationFromCronModel envOracleFail [msgTextProcessing] 7
        [msgTextProcessing] [] = ⟨[msgTextProcessing], 1, [], false⟩ ∧
    msgTextProcessing.status = .processing := by decide

/-- C7 (amended): when the oracle call of `processConversation` (the
webhook dispatch path) fails, the scheduler attempts exactly one generic
apology delivery, marks every claimed message of the batch `error`, and
makes exactly one oracle call in that dispatch (no automatic retry); when
the oracle call of the cron dispatch path fails, the failure is
swallowed: no apology is attempted and the claimed messages keep status
`processing` instead of being marked `error`. -/
theorem oracle_failure_one_apology_error_no_retry (env : Env)
    (store : List Msg) (c now : Int) (store2 : List Msg) (c2 : Int)
    (batch2 hist2 : List Msg)
    (hb : processingFor store c ≠ [])
    (hc1 : assembledContent env store c now ≠ [])
    (hfail : env.oracle (assembledContent env store c now) = .error ())
    (hc2 : resolveBatch env (assembleCron hist2 batch2) ≠ [])
    (hfail2 : env.oracle (resolveBatch env (assembleCron hist2 batch2)) =
      .error ()) :
    processConversationModel env store c now =
      ⟨markStatus store c ((processingFor store c).map (fun m => m.docId))
          .error, 1,
        ["Lo siento, hubo un error al intentar generar una respuesta. Por favor, intenta de nuevo."],
        false⟩ ∧
    processConversationFromCronModel env store2 c2 batch2 hist2 =
      ⟨store2, 1, [], false⟩ := by
  constructor
  · have hb' : (processingFor store c).isEmpty = false := by
      simpa using hb
    have hc1' : (assembledContent env store c now).isEmpty = false := by
      simpa using hc1
    unfold processConversationModel
    dsimp only
    rw [hb', hc1', hfail]
    simp
  · have hc2' : (resolveBatch env (assembleCron hist2 batch2)).isEmpty =
        false := by simpa using hc2
    unfold processConversationFromCronModel
    dsimp only
    rw [hc2', hfail2]
    simp

/-- C7 (witness): the amended statement at a one-text-message claimed
batch under the failing oracle. -/
theorem oracle_failure_one_apology_error_no_retry_witness :
    processConversationModel envOracleFail [msgTextProcessing] 7 1200 =
      ⟨markStatus [msgTextProcessing] 7
          ((processingFor [msgTextProcessing] 7).map (fun m => m.docId))
          .error, 1,
        ["Lo siento, hubo un error al intentar generar una respuesta. Por favor, intenta de nuevo."],
        false⟩ ∧
    processConversationFromCronModel envOracleFail [msgTextProcessing] 7
        [msgTextProcessing] [] = ⟨[msgTextProcessing], 1, [], false⟩ :=
  oracle_failure_one_apology_error_no_retry envOracleFail
    [msgTextProcessing] 7 1200 [msgTextProcessing] 7 [msgTextProcessing]
    [] (by decide) (by decide) (by rfl) (by decide) (by rfl)

/-! ### C8 — graceful media degradation -/

/-- C8: a claimed batch holding a voice message whose transcription
fails and a valid (nonempty, non-command) text message still dispatches:
the assembled content contains the literal placeholder
`(Error al transcribir audio)` for the failed item AND the literal text
of the valid one, and `processConversation` makes its oracle call — the
media failure never aborts the batch. -/
theorem media_failure_degrades_gracefully (env : Env) (store : List Msg)
    (c now : Int) (v t : Msg) (fid : Nat) (s : String)
    (hv : v ∈ processingFor store c) (hvp : v.payload = .voice fid)
    (hvf : env.transcribe fid = none)
    (ht : t ∈ processingFor store c) (htp : t.payload = .text s)
    (hs0 : (s == "") = false) (hs1 : startsWithSlash s = false) :
    ContentPart.text "(Error al transcribir audio)" ∈
      assembledContent env store c now ∧
    ContentPart.text s ∈ assembledContent env store c now ∧
    (processConversationModel env store c now).oracleCalls = 1 := by
  have hvm : v ∈ assembledMsgs store c now := by
    unfold assembledMsgs assembleWebhook
    exact (mem_sortedBy _ _ _).mpr (List.mem_append.mpr (Or.inr hv))
  have htm : t ∈ assembledMsgs store c now := by
    unfold assembledMsgs assembleWebhook
    exact (mem_sortedBy _ _ _).mpr (List.mem_append.mpr (Or.inr ht))
  have hp1 : ContentPart.text "(Error al transcribir audio)" ∈
      resolveMsg env v := by
    simp [resolveMsg, hvp, hvf]
  have hp2 : ContentPart.text s ∈ resolveMsg env t := by
    simp [resolveMsg, htp, hs0, hs1]
  have hm1 : ContentPart.text "(Error al transcribir audio)" ∈
      assembledContent env store c now := mem_resolveBatch env hvm hp1
  have hm2 : ContentPart.text s ∈ assembledContent env store c now :=
    mem_resolveBatch env htm hp2
  refine ⟨hm1, hm2, ?_⟩
  have hb' : (processingFor store c).isEmpty = false := by
    simpa using List.ne_nil_of_mem hv
  have hc' : (assembledContent env store c now).isEmpty = false := by
    simpa using List.ne_nil_of_mem hm1
  unfold processConversationModel
  dsimp only
  rw [hb', hc']
  simp only [Bool.false_eq_true, if_false]
  split <;> rfl

/-- C8 (witness): a claimed batch of one unreachable voice message and
one valid text message. -/
theorem media_failure_degrades_gracefully_witness :
    ContentPart.text "(Error al transcribir audio)" ∈
      assembledContent envOracleOk
        [msgVoiceProcessing, msgTextProcessing] 7 2000 ∧
    ContentPart.text "hola" ∈ assembledContent envOracleOk
        [msgVoiceProcessing, msgTextProcessing] 7 2000 ∧
    (processConversationModel envOracleOk
        [msgVoiceProcessing, msgTextProcessing] 7 2000).oracleCalls = 1 :=
  media_failure_degrades_gracefully envOracleOk
    [msgVoiceProcessing, msgTextProcessing] 7 2000 msgVoiceProcessing
    msgTextProcessing 11 "hola" (by decide) (by decide) (by decide)
    (by decide) (by decide) (by decide) (by decide)

end SPA
